import Mathlib

/-!
Shallow embedding of the analytics core of the folkevalget repository:
text normalisation, missing-value-aware comparators, vote signal
classification, party rollup building and the filter/sort/URL state
controllers, together with theorems settling the specification claims.

JS strings are modelled as `String`/`List Char` over Unicode scalar
values.  Environment functions supplied by the JS runtime
(`String.prototype.toLowerCase`, `String.prototype.normalize("NFD")`,
the Unicode character classes used by the `u`-flagged regexes) are
modelled by total Lean functions that agree with the Unicode data
tables on the finite character repertoire exercised by the theorems;
the locale-aware `localeCompare` collation is passed in as an explicit
comparator parameter.  JS numbers are idealised as rationals.
-/

namespace Folkevalget

/-- Whitespace class of the JS regexes `\s` and of `String.prototype.trim`
(the characters of that class that occur in the modelled repertoire). -/
def isWsJs (c : Char) : Bool :=
  c = ' ' || c = '\t' || c = '\n' || c = '\r' || c = '\u000b' || c = '\u000c'

/-- The combining-diacritic range `[̀-ͯ]` stripped by `normaliseText`. -/
def isCombiningMark (c : Char) : Bool :=
  0x300 ≤ c.toNat && c.toNat ≤ 0x36f

/-- Model of `String.prototype.toLowerCase` restricted to the character
repertoire used in this development: ASCII letters plus the Danish,
Faroese and decorated Latin letters appearing in the data; identity on
everything else. -/
def jsToLower (c : Char) : Char :=
  if 'A' ≤ c && c ≤ 'Z' then Char.ofNat (c.toNat + 32)
  else if c = 'Æ' then 'æ'
  else if c = 'Ø' then 'ø'
  else if c = 'Å' then 'å'
  else if c = 'Ð' then 'ð'
  else if c = 'Þ' then 'þ'
  else if c = 'Ǣ' then 'ǣ'
  else if c = 'É' then 'é'
  else c

/-- Model of the Unicode `\p{L}` class restricted to the modelled repertoire. -/
def isLetterJs (c : Char) : Bool :=
  ('a' ≤ c && c ≤ 'z') || ('A' ≤ c && c ≤ 'Z') ||
    (['æ', 'ø', 'å', 'ð', 'þ', 'é', 'ǣ', 'ǿ', 'ǻ',
      'Æ', 'Ø', 'Å', 'Ð', 'Þ', 'Ǣ', 'É'].contains c)

/-- Model of the Unicode `\p{N}` class restricted to the modelled repertoire. -/
def isDigitJs (c : Char) : Bool :=
  '0' ≤ c && c ≤ '9'

/-- A character kept by the regex `[^\p{L}\p{N}\s-]` replacement stage. -/
def keepSearchChar (c : Char) : Bool :=
  isLetterJs c || isDigitJs c || isWsJs c || c = '-'

/-- The Danish/Faroese letter replacements applied by `normaliseText`
via chained `replaceAll` calls; a single-character pattern `replaceAll`
acts pointwise on the string. -/
def danishChar (c : Char) : List Char :=
  if c = 'æ' then ['a', 'e']
  else if c = 'ø' then ['o', 'e']
  else if c = 'å' then ['a', 'a']
  else if c = 'ð' then ['d']
  else if c = 'þ' then ['t', 'h']
  else [c]

/-- All five `replaceAll` stages of `normaliseText` combined. -/
def danishReplace (l : List Char) : List Char :=
  l.flatMap danishChar

/-- Canonical decomposition of one character under `normalize("NFD")`,
per UnicodeData.txt, restricted to the modelled repertoire (each listed
character's full canonical decomposition; identity on characters with
no canonical decomposition, which covers all of ASCII). -/
def nfdChar (c : Char) : List Char :=
  if c = 'ǣ' then ['æ', '̄']
  else if c = 'ǿ' then ['ø', '́']
  else if c = 'ǻ' then ['a', '̊', '́']
  else if c = 'å' then ['a', '̊']
  else if c = 'é' then ['e', '́']
  else if c = 'Å' then ['A', '̊']
  else if c = 'É' then ['E', '́']
  else [c]

/-- Model of `String.prototype.normalize("NFD")` on the modelled repertoire
(no combining-mark reordering is needed for these characters). -/
def nfd (l : List Char) : List Char :=
  l.flatMap nfdChar

/-- The `replace(/[̀-ͯ]/g, "")` stage. -/
def stripCombining (l : List Char) : List Char :=
  l.filter (fun c => !isCombiningMark c)

/-- The `replace(/[^\p{L}\p{N}\s-]/gu, " ")` stage. -/
def punctToSpace (l : List Char) : List Char :=
  l.map (fun c => if keepSearchChar c then c else ' ')

/-- The `replace(/\s+/g, " ")` stage: every maximal whitespace run
becomes a single space. -/
def squashWs : List Char → List Char
  | [] => []
  | [c] => [if isWsJs c then ' ' else c]
  | c :: d :: rest =>
    if isWsJs c && isWsJs d then squashWs (d :: rest)
    else (if isWsJs c then ' ' else c) :: squashWs (d :: rest)

/-- The `trim()` stage on character lists. -/
def jsTrimL (l : List Char) : List Char :=
  ((l.dropWhile isWsJs).reverse.dropWhile isWsJs).reverse

/-- `window.Folkevalget.normaliseText`, list form: lowercase, Danish
replacements, NFD, strip combining marks, map other punctuation to
spaces, collapse whitespace, trim. -/
def normaliseTextL (value : List Char) : List Char :=
  jsTrimL (squashWs (punctToSpace (stripCombining (nfd (danishReplace
    (value.map jsToLower))))))

/-- `window.Folkevalget.normaliseText` on strings. -/
def normaliseText (value : String) : String :=
  ⟨normaliseTextL value.data⟩

/-- `String.prototype.toLowerCase` on strings (modelled repertoire). -/
def toLowerStr (s : String) : String :=
  ⟨s.data.map jsToLower⟩

/-- `String.prototype.trim` on strings (modelled repertoire). -/
def jsTrimStr (s : String) : String :=
  ⟨jsTrimL s.data⟩

/-- Does the list start with the given needle (`String.prototype.startsWith`). -/
def listStartsWith : List Char → List Char → Bool
  | _, [] => true
  | [], _ :: _ => false
  | c :: cs, d :: ds => c = d && listStartsWith cs ds

/-- `String.prototype.includes`: the needle occurs contiguously in the
haystack. -/
def listIncludes : List Char → List Char → Bool
  | [], needle => needle.isEmpty
  | c :: rest, needle => listStartsWith (c :: rest) needle || listIncludes rest needle

/-- `haystack.includes(needle)` on strings. -/
def strIncludes (haystack needle : String) : Bool :=
  listIncludes haystack.data needle.data

/-- JS truthiness of a nullable string (`undefined`/`null` and `""` are falsy). -/
def truthyStr : Option String → Bool
  | none => false
  | some s => s ≠ ""

/-- The JS `a || b` idiom on a nullable string with a plain string default. -/
def jsOrStr (a : Option String) (b : String) : String :=
  match a with
  | some s => if s = "" then b else s
  | none => b

/-- The JS `a || b` idiom when both operands are nullable strings. -/
def jsOrOpt (a b : Option String) : Option String :=
  if truthyStr a then a else b

/-- A committee reference `{short_name, name}` on a profile. -/
structure Committee where
  short_name : Option String
  name : Option String
deriving Repr, DecidableEq

/-- A politician profile record (the fields read by the embedded code). -/
structure Profile where
  id : Nat
  name : String
  party : Option String
  party_short : Option String
  current_party : Option String
  current_party_short : Option String
  role : Option String
  storkreds : Option String
  attendance_pct : Option ℚ
  party_loyalty_pct : Option ℚ
  committees : List Committee
deriving Repr, DecidableEq

/-- A vote (afstemning) record (the fields read by the embedded code);
`counts_for`/`counts_imod` model `vote.counts?.for`/`vote.counts?.imod`. -/
structure Vote where
  afstemning_id : Nat
  date : Option String
  sag_number : Option String
  sag_title : Option String
  sag_short_title : Option String
  type : Option String
  konklusion : Option String
  vedtaget : Bool
  counts_for : Option ℚ
  counts_imod : Option ℚ
  party_split_count : Option ℚ
deriving Repr, DecidableEq

/-- `const CLOSE_VOTE_THRESHOLD_PCT = 10`. -/
def CLOSE_VOTE_THRESHOLD_PCT : ℚ := 10

/-- `voteDecisionTotal`: `Number(vote.counts?.for || 0) + Number(vote.counts?.imod || 0)`. -/
def voteDecisionTotal (vote : Vote) : ℚ :=
  vote.counts_for.getD 0 + vote.counts_imod.getD 0

/-- `voteMarginSharePct`: `Number.POSITIVE_INFINITY` (modelled as `⊤`)
when the decision total is zero, else `|for - imod| / total * 100`. -/
def voteMarginSharePct (vote : Vote) : WithTop ℚ :=
  if voteDecisionTotal vote = 0 then ⊤
  else ((|vote.counts_for.getD 0 - vote.counts_imod.getD 0| / voteDecisionTotal vote * 100 : ℚ) : WithTop ℚ)

/-- `isCloseVote`: positive decision total and margin share at most the
threshold. -/
def isCloseVote (vote : Vote) : Bool :=
  decide (0 < voteDecisionTotal vote) &&
    decide (voteMarginSharePct vote ≤ (CLOSE_VOTE_THRESHOLD_PCT : WithTop ℚ))

/-- `hasPartySplit`: `Number(vote.party_split_count || 0) > 0`. -/
def hasPartySplit (vote : Vote) : Bool :=
  decide (0 < vote.party_split_count.getD 0)

/-- The locale-aware name comparator (`compareByName`, built on
`localeCompare` with Danish collation) is an environment function and is
passed in explicitly. -/
abbrev NameCmp := Profile → Profile → ℚ

/-- `compareMetric` (part_001): missing values sort last in both
directions, equal present values fall back to the name comparator. -/
def compareMetric (compareByName : NameCmp) (leftValue rightValue : Option ℚ)
    (leftProfile rightProfile : Profile) (direction : String) : ℚ :=
  if leftValue.isNone && rightValue.isNone then compareByName leftProfile rightProfile
  else if leftValue.isNone then 1
  else if rightValue.isNone then -1
  else
    let delta := if direction = "desc" then rightValue.getD 0 - leftValue.getD 0
      else leftValue.getD 0 - rightValue.getD 0
    if delta ≠ 0 then delta else compareByName leftProfile rightProfile

/-- `compareProfiles` (part_001): dispatch on the sort-mode token. -/
def compareProfiles (compareByName : NameCmp) (left right : Profile) (sortMode : String) : ℚ :=
  if sortMode = "attendance_desc" then
    compareMetric compareByName left.attendance_pct right.attendance_pct left right "desc"
  else if sortMode = "attendance_asc" then
    compareMetric compareByName left.attendance_pct right.attendance_pct left right "asc"
  else if sortMode = "loyalty_desc" then
    compareMetric compareByName left.party_loyalty_pct right.party_loyalty_pct left right "desc"
  else if sortMode = "loyalty_asc" then
    compareMetric compareByName left.party_loyalty_pct right.party_loyalty_pct left right "asc"
  else compareByName left right

/-- `compareAttendance` (app.js): the duplicated attendance comparator. -/
def compareAttendance (compareByName : NameCmp) (left right : Profile) (direction : String) : ℚ :=
  let leftValue := left.attendance_pct
  let rightValue := right.attendance_pct
  if leftValue.isNone && rightValue.isNone then compareByName left right
  else if leftValue.isNone then 1
  else if rightValue.isNone then -1
  else
    let delta := if direction = "desc" then rightValue.getD 0 - leftValue.getD 0
      else leftValue.getD 0 - rightValue.getD 0
    if delta ≠ 0 then delta else compareByName left right

/-- `Number(x.toFixed(1))`: round to one decimal place, ties away from
zero toward the larger value (the ECMAScript `toFixed` rule for the
non-negative inputs arising here). -/
def round1 (x : ℚ) : ℚ :=
  (⌊x * 10 + 1 / 2⌋ : ℚ) / 10

/-- `averageMetric` (part_003): arithmetic mean of the non-null values,
rounded to one decimal place; `null` when no value is present.  In the
rational idealisation every present value is finite, so the
`Number.isFinite` filter keeps exactly the non-null entries. -/
def averageMetric (values : List (Option ℚ)) : Option ℚ :=
  let comparableValues := values.filterMap (fun v => v)
  if comparableValues.isEmpty then none
  else some (round1 (comparableValues.foldl (· + ·) 0 / (comparableValues.length : ℚ)))

/-- A raw party roster entry `{short_name, name, member_ids}`. -/
structure PartyEntry where
  short_name : Option String
  name : Option String
  member_ids : List Nat
deriving Repr, DecidableEq

/-- One bucket of the `groupedParties` map: the map key
`entry.short_name || entry.name` (which may be the absent value) plus
the accumulated `shortName`, raw-name set and member-id set, in
insertion order. -/
structure PartyGroup where
  key : Option String
  shortName : String
  rawNames : List String
  memberIds : List Nat
deriving Repr, DecidableEq

/-- The grouping key `entry.short_name || entry.name` (JS `||` returns
the second operand verbatim when the first is falsy). -/
def entryKey (entry : PartyEntry) : Option String :=
  if truthyStr entry.short_name then entry.short_name else entry.name

/-- `Set.prototype.add`: append if not already present (insertion order kept). -/
def addUnique {α : Type} [DecidableEq α] (l : List α) (x : α) : List α :=
  if x ∈ l then l else l ++ [x]

/-- Folding one entry into its group: add the truthy `name` to the
raw-name set and every member id to the member-id set. -/
def addToGroup (group : PartyGroup) (entry : PartyEntry) : PartyGroup :=
  { group with
    rawNames :=
      if truthyStr entry.name then addUnique group.rawNames (entry.name.getD "")
      else group.rawNames
    memberIds := entry.member_ids.foldl addUnique group.memberIds }

/-- One step of the grouping loop in `buildPartyRows`: fetch or create
the bucket for `entryKey entry`, then fold the entry into it. -/
def insertEntry (groups : List PartyGroup) (entry : PartyEntry) : List PartyGroup :=
  let k := entryKey entry
  if groups.any (fun g => g.key == k) then
    groups.map (fun g => if g.key == k then addToGroup g entry else g)
  else
    groups ++ [addToGroup
      { key := k, shortName := jsOrStr entry.short_name "", rawNames := [], memberIds := [] }
      entry]

/-- The grouping loop of `buildPartyRows` over all roster entries. -/
def groupEntries (partyEntries : List PartyEntry) : List PartyGroup :=
  partyEntries.foldl insertEntry []

/-- `profilesById.get(memberId)` where `profilesById` is a `Map` built
from the profile list (a later entry with the same id overwrites an
earlier one). -/
def profilesFind (profiles : List Profile) (memberId : Nat) : Option Profile :=
  profiles.reverse.find? (fun p => p.id == memberId)

/-- The `PARTY_NAMES` lookup table. -/
def PARTY_NAMES (code : String) : Option String :=
  if code = "S" then some "Socialdemokratiet"
  else if code = "V" then some "Venstre"
  else if code = "M" then some "Moderaterne"
  else if code = "SF" then some "Socialistisk Folkeparti"
  else if code = "EL" then some "Enhedslisten"
  else if code = "KF" then some "Det Konservative Folkeparti"
  else if code = "LA" then some "Liberal Alliance"
  else if code = "RV" then some "Radikale Venstre"
  else if code = "ALT" then some "Alternativet"
  else if code = "DD" then some "Danmarksdemokraterne"
  else if code = "DF" then some "Dansk Folkeparti"
  else if code = "BP" then some "Borgernes Parti"
  else if code = "IA" then some "Inuit Ataqatigiit"
  else if code = "JF" then some "Javnaðarflokkurin"
  else if code = "N" then some "Naleraq"
  else if code = "SP" then some "Sambandsflokkurin"
  else if code = "SIU" then some "Siumut"
  else if code = "UFG" then some "Uden for grupperne"
  else none

/-- `NORTH_ATLANTIC_PARTIES`. -/
def NORTH_ATLANTIC_PARTIES : List String := ["IA", "JF", "SP", "SIU", "N"]

/-- `isNorthAtlanticMandate`. -/
def isNorthAtlanticMandate (profile : Profile) : Bool :=
  NORTH_ATLANTIC_PARTIES.contains (profile.party_short.getD "")

/-- `isCurrentMinister`: role contains "minister" without the "fhv." marker. -/
def isCurrentMinister (profile : Profile) : Bool :=
  let role := toLowerStr (profile.role.getD "")
  strIncludes role "minister" && !strIncludes role "fhv."

/-- `partyDisplayName` (part_001). -/
def partyDisplayName (partyName partyShort : Option String) : String :=
  let name := if truthyStr partyName then partyName
    else if truthyStr partyShort then PARTY_NAMES (partyShort.getD "")
    else none
  if truthyStr name && truthyStr partyShort then
    name.getD "" ++ " (" ++ partyShort.getD "" ++ ")"
  else jsOrStr (jsOrOpt name partyShort) "Uden parti"

/-- The regex test `/uden for folketingsgrupperne/i.test(name)`. -/
def ufgNameTest (name : String) : Bool :=
  strIncludes (toLowerStr name) "uden for folketingsgrupperne"

/-- `resolvePartyName` (part_003): UFG lookup, else a member's current
party name, else a non-generic historical roster name, else the code
lookup, the code itself, or the unknown-party placeholder. -/
def resolvePartyName (shortName : String) (rawNames : List String)
    (members : List Profile) : Option String :=
  if shortName = "UFG" then PARTY_NAMES shortName
  else
    let memberName := members.find? (fun member =>
      truthyStr member.current_party || truthyStr member.party)
    if truthyStr (memberName.bind (·.current_party)) then memberName.bind (·.current_party)
    else if truthyStr (memberName.bind (·.party)) then memberName.bind (·.party)
    else
      let namedEntry := rawNames.find? (fun name => !ufgNameTest name)
      some (jsOrStr (jsOrOpt namedEntry (PARTY_NAMES shortName))
        (if shortName = "" then "Ukendt parti" else shortName))

/-- `toSiteUrl` relative to the ambient `siteBasePath` (environment value). -/
def toSiteUrl (siteBasePath path : String) : String :=
  siteBasePath ++ path

/-- `buildDiscoverUrl` (part_003): discover page link filtered to the party. -/
def buildDiscoverUrl (siteBasePath shortName : String) : String :=
  if shortName ≠ "" then toSiteUrl siteBasePath "discover.html" ++ "?party=" ++ shortName
  else toSiteUrl siteBasePath "discover.html" ++ "?"

/-- A derived party rollup row (part_003 field set). -/
structure PartyRow where
  shortName : String
  partyName : Option String
  displayName : String
  memberCount : Nat
  attendanceAvg : Option ℚ
  committeeAvg : Option ℚ
  ministerCount : Nat
  northAtlanticCount : Nat
  discoverUrl : String
deriving Repr, DecidableEq

/-- The row-construction step of `buildPartyRows`: resolve member ids to
live profiles, return no row when none resolve, else aggregate. -/
def mkPartyRow (siteBasePath : String) (profiles : List Profile)
    (group : PartyGroup) : Option PartyRow :=
  let members := group.memberIds.filterMap (profilesFind profiles)
  if members.isEmpty then none
  else
    let partyName := resolvePartyName group.shortName group.rawNames members
    some
      { shortName := group.shortName
        partyName := partyName
        displayName := partyDisplayName partyName (some group.shortName)
        memberCount := members.length
        attendanceAvg := averageMetric (members.map (·.attendance_pct))
        committeeAvg := averageMetric (members.map (fun m => some ((m.committees.length : ℚ))))
        ministerCount := (members.filter isCurrentMinister).length
        northAtlanticCount := (members.filter isNorthAtlanticMandate).length
        discoverUrl := buildDiscoverUrl siteBasePath group.shortName }

/-- `buildPartyRows` (part_003): group the roster entries, then build
one row per group that resolves to at least one live profile. -/
def buildPartyRows (siteBasePath : String) (profiles : List Profile)
    (partyEntries : List PartyEntry) : List PartyRow :=
  (groupEntries partyEntries).filterMap (mkPartyRow siteBasePath profiles)

/-- A URL query string modelled as its ordered key/value pairs. -/
abbrev Params := List (String × String)

/-- `URLSearchParams.prototype.get`: the first value for the key, or null. -/
def getParam (params : Params) (key : String) : Option String :=
  (params.find? (fun kv => kv.fst == key)).map (·.snd)

/-- The filter/sort state of the discover-style profile controllers. -/
structure DiscoverState where
  query : String
  constituencyFilter : String
  partyFilter : String
  committeeFilter : String
  sortMode : String
deriving Repr, DecidableEq

/-- The initial `state` literal of the discover.js controller
(`sortMode: "attendance_desc"`). -/
def discoverDefaultState : DiscoverState :=
  { query := "", constituencyFilter := "", partyFilter := "",
    committeeFilter := "", sortMode := "attendance_desc" }

/-- `hydrateStateFromQuery` (discover.js): every parameter is read with
a `|| default` fallback; the sort token is stored verbatim. -/
def hydrateDiscover (params : Params) : DiscoverState :=
  { query := jsOrStr (getParam params "q") ""
    constituencyFilter := jsOrStr (getParam params "storkreds") ""
    partyFilter := jsOrStr (getParam params "party") ""
    committeeFilter := jsOrStr (getParam params "committee") ""
    sortMode := jsOrStr (getParam params "sort") "attendance_desc" }

/-- `syncQueryString` (discover.js): write only non-default values; the
sort parameter is omitted exactly when the mode is falsy or equals
"attendance_asc". -/
def syncQueryStringDiscover (state : DiscoverState) : Params :=
  (if jsTrimStr state.query ≠ "" then [("q", jsTrimStr state.query)] else []) ++
  (if state.constituencyFilter ≠ "" then [("storkreds", state.constituencyFilter)] else []) ++
  (if state.partyFilter ≠ "" then [("party", state.partyFilter)] else []) ++
  (if state.committeeFilter ≠ "" then [("committee", state.committeeFilter)] else []) ++
  (if state.sortMode ≠ "" ∧ state.sortMode ≠ "attendance_asc" then [("sort", state.sortMode)] else [])

/-- `VALID_SORTS` of the part_002 discover controller. -/
def VALID_SORTS_DISCOVER : List String := ["name", "attendance_desc", "attendance_asc"]

/-- `hydrateStateFromQuery` (part_002): the sort token is validated
against `VALID_SORTS` and clamped to "name". -/
def hydrateDiscover2 (params : Params) : DiscoverState :=
  let sortMode := jsOrStr (getParam params "sort") "name"
  { query := jsOrStr (getParam params "q") ""
    constituencyFilter := jsOrStr (getParam params "storkreds") ""
    partyFilter := jsOrStr (getParam params "party") ""
    committeeFilter := jsOrStr (getParam params "committee") ""
    sortMode := if VALID_SORTS_DISCOVER.contains sortMode then sortMode else "name" }

/-- `syncQueryString` (part_002): sort omitted exactly when it is falsy
or equals the "name" default. -/
def syncQueryStringDiscover2 (state : DiscoverState) : Params :=
  (if jsTrimStr state.query ≠ "" then [("q", jsTrimStr state.query)] else []) ++
  (if state.constituencyFilter ≠ "" then [("storkreds", state.constituencyFilter)] else []) ++
  (if state.partyFilter ≠ "" then [("party", state.partyFilter)] else []) ++
  (if state.committeeFilter ≠ "" then [("committee", state.committeeFilter)] else []) ++
  (if state.sortMode ≠ "" ∧ state.sortMode ≠ "name" then [("sort", state.sortMode)] else [])

/-- `VALID_SORTS` of the part_004 votes controller. -/
def VALID_SORTS_VOTES : List String :=
  ["date_desc", "passed_first", "failed_first", "close_first", "split_first"]

/-- The filter/sort state of the votes controller. -/
structure VotesState where
  query : String
  partyFilter : String
  sortMode : String
  closeOnly : Bool
  splitOnly : Bool
  selectedVoteId : Option Nat
deriving Repr, DecidableEq

/-- `Number(params.get("id"))` followed by the
`Number.isFinite(raw) && raw > 0` guard: an absent parameter coerces to
0 (not positive) and a decimal digit string parses to its value; other
strings give NaN.  The modelled fragment covers the digit strings that
`syncQueryString` itself writes. -/
def parseVoteId (raw : Option String) : Option Nat :=
  match raw with
  | none => none
  | some s =>
    match s.toNat? with
    | some n => if 0 < n then some n else none
    | none => none

/-- `hydrateStateFromQuery` (part_004 votes controller). -/
def hydrateVotes (params : Params) : VotesState :=
  let sortMode := jsOrStr (getParam params "sort") "date_desc"
  { query := jsOrStr (getParam params "q") ""
    partyFilter := jsOrStr (getParam params "party") ""
    sortMode := if VALID_SORTS_VOTES.contains sortMode then sortMode else "date_desc"
    closeOnly := getParam params "close" == some "1"
    splitOnly := getParam params "split" == some "1"
    selectedVoteId := parseVoteId (getParam params "id") }

/-- `VALID_SORTS` of the part_003 parties controller. -/
def VALID_SORTS_PARTIES : List String :=
  ["name", "members_desc", "attendance_desc", "attendance_asc"]

/-- `hydrateStateFromQuery` (part_003 parties controller): only the sort
mode is persisted. -/
def hydrateParties (params : Params) : String :=
  let sortMode := jsOrStr (getParam params "sort") "name"
  if VALID_SORTS_PARTIES.contains sortMode then sortMode else "name"

/-- A JS template-string fragment `${value}` for a nullable string
(undefined renders as the literal text "undefined"). -/
def strOfJs (o : Option String) : String := o.getD "undefined"

/-- `[...].filter(Boolean).join(" ")` over nullable strings. -/
def joinTruthy (parts : List (Option String)) : String :=
  String.intercalate " " ((parts.filterMap (fun p => p)).filter (fun s => s ≠ ""))

/-- The searchable string of the app.js profile filter:
`[name, party, party_short].filter(Boolean).join(" ").toLowerCase()`. -/
def appSearchable (profile : Profile) : String :=
  toLowerStr (joinTruthy [some profile.name, profile.party, profile.party_short])

/-- The app.js search listener stores
`event.target.value.trim().toLowerCase()` into `state.query`. -/
def appStateQuery (input : String) : String :=
  toLowerStr (jsTrimStr input)

/-- The free-text predicate of app.js `applyFilters`: raw lowercase
substring only (no normalisation). -/
def appMatchesQuery (stateQuery : String) (profile : Profile) : Bool :=
  stateQuery == "" || strIncludes (appSearchable profile) stateQuery

/-- The raw searchable string of the discover.js profile filter. -/
def discoverRawSearchable (profile : Profile) : String :=
  toLowerStr (joinTruthy
    ([some profile.name, profile.party, profile.party_short, profile.role] ++
      profile.committees.map (fun committee =>
        some (strOfJs committee.short_name ++ " " ++ committee.name.getD ""))))

/-- The free-text predicate of discover.js `applyFilters`: normalised
substring OR raw lowercase substring. -/
def discoverMatchesQuery (stateQuery : String) (profile : Profile) : Bool :=
  let rawQuery := toLowerStr (jsTrimStr stateQuery)
  let query := normaliseText stateQuery
  let rawSearchable := discoverRawSearchable profile
  let searchable := normaliseText rawSearchable
  rawQuery == "" || strIncludes searchable query || strIncludes rawSearchable rawQuery

/-- The normalised searchable string of the part_004 vote filter. -/
def voteSearchable (vote : Vote) : String :=
  normaliseText (joinTruthy
    [vote.sag_number, vote.sag_short_title, vote.sag_title,
      vote.type, vote.konklusion, vote.date])

/-- The free-text predicate of part_004 `applyVoteFilter`: normalised
substring only (no raw fallback clause). -/
def voteMatchesQuery (stateQuery : String) (vote : Vote) : Bool :=
  let query := normaliseText stateQuery
  query == "" || strIncludes (voteSearchable vote) query

/-- Modelled from the spec: the §4.2 matching rule that every search box
is claimed to apply — normalised-query substring of normalised
candidate OR raw-lowercase-query substring of raw-lowercase candidate. -/
def specSearchMatches (query candidate : String) : Bool :=
  strIncludes (normaliseText candidate) (normaliseText query) ||
    strIncludes (toLowerStr candidate) (toLowerStr query)

/-- The full filter predicate of part_004 `applyVoteFilter` (close-only
and split-only flags conjoined with the free-text predicate). -/
def applyVoteFilterKeeps (closeOnly splitOnly : Bool) (stateQuery : String) (vote : Vote) : Bool :=
  if closeOnly && !isCloseVote vote then false
  else if splitOnly && !hasPartySplit vote then false
  else voteMatchesQuery stateQuery vote

/-- The selection-reconciliation step of part_004 `applyVoteFilter`
(lines 145-148): keep the selection when it is still in the filtered
list, else take the first filtered vote (or null) and clear the party
filter. -/
def reconcileVoteSelection (filteredVotes : List Vote) (selectedVoteId : Option Nat)
    (partyFilter : String) : Option Nat × String :=
  if filteredVotes.any (fun vote => some vote.afstemning_id == selectedVoteId) then
    (selectedVoteId, partyFilter)
  else
    ((filteredVotes.head?).map (·.afstemning_id), "")

/-- The selection-reconciliation step of app.js `applyFilters` (lines
159-167, via `selectProfile`): keep the selection when still visible,
else select the first filtered profile, or null when the list is empty. -/
def reconcileProfileSelection (filteredProfiles : List Profile)
    (selectedId : Option Nat) : Option Nat :=
  if filteredProfiles.any (fun profile => some profile.id == selectedId) then selectedId
  else (filteredProfiles.head?).map (·.id)

/-- Character domain of the idempotence theorem: ASCII plus the Danish
and Faroese letters that the normaliser replaces, in either case. -/
def PlainChar (c : Char) : Prop :=
  c.toNat < 128 ∨ c ∈ (['æ', 'ø', 'å', 'ð', 'þ', 'Æ', 'Ø', 'Å', 'Ð', 'Þ'] : List Char)

instance decPlainChar : DecidablePred PlainChar := fun c =>
  inferInstanceAs (Decidable (c.toNat < 128 ∨
    c ∈ (['æ', 'ø', 'å', 'ð', 'þ', 'Æ', 'Ø', 'Å', 'Ð', 'Þ'] : List Char)))

/-- Two adjacent characters are not both whitespace. -/
def NotBothWs (a b : Char) : Prop :=
  isWsJs a = false ∨ isWsJs b = false

/-- A character that can occur in `normaliseText` output on plain
input: ASCII, kept by the search character class, not an upper-case
ASCII letter, and whitespace only as a plain space. -/
def CanonChar (c : Char) : Prop :=
  c.toNat < 128 ∧ keepSearchChar c = true ∧ ¬(65 ≤ c.toNat ∧ c.toNat ≤ 90) ∧
    (isWsJs c = true → c = ' ')

/-- The canonical shape of `normaliseText` output on plain input: only
canonical characters, no two adjacent whitespace characters, and no
leading or trailing whitespace. -/
def CanonList (l : List Char) : Prop :=
  (∀ c ∈ l, CanonChar c) ∧ List.Chain' NotBothWs l ∧
    (∀ c, l.head? = some c → isWsJs c = false) ∧
    (∀ c, l.getLast? = some c → isWsJs c = false)

/-- Sample profile "Anna" with attendance 90 and loyalty 95. -/
def profileAnna : Profile :=
  ⟨1, "Anna", none, none, none, none, none, none, some 90, some 95, []⟩

/-- Sample profile "Bo" with both metrics missing. -/
def profileBo : Profile :=
  ⟨2, "Bo", none, none, none, none, none, none, none, none, []⟩

/-- Sample profile named "søren" with no other searchable fields. -/
def profileSoren : Profile :=
  ⟨3, "søren", none, none, none, none, none, none, none, none, []⟩

/-- A vote record with the given yes/no counts and party-split count. -/
def countsVote (forCount imodCount : ℚ) (splitCount : Option ℚ) : Vote :=
  ⟨1, none, none, none, none, none, none, true, some forCount, some imodCount, splitCount⟩

/-- A roster entry with neither a short_name nor a name. -/
def keylessEntry : PartyEntry := ⟨none, none, [1]⟩

/-- A party group whose only member id matches no profile. -/
def staleGroup : PartyGroup := ⟨some "S", "S", [], [99]⟩

/-! ### Helper lemmas -/

theorem filterMap_id_eq_nil {values : List (Option ℚ)} :
    values.filterMap (fun v => v) = [] ↔ values.all (fun v => v.isNone) = true := by
  rw [List.filterMap_eq_nil_iff, List.all_eq_true]
  simp [Option.isNone_iff_eq_none]

theorem filterMap_some_eq {α : Type} (l : List α) : l.filterMap some = l := by
  induction l with
  | nil => rfl
  | cons x xs ih => simp [List.filterMap_cons, ih]

theorem isCloseVote_iff (vote : Vote) :
    isCloseVote vote = true ↔
      0 < voteDecisionTotal vote ∧ voteMarginSharePct vote ≤ (10 : WithTop ℚ) := by
  simp [isCloseVote, CLOSE_VOTE_THRESHOLD_PCT]

theorem countsVote_total (forCount imodCount : ℚ) (splitCount : Option ℚ) :
    voteDecisionTotal (countsVote forCount imodCount splitCount) = forCount + imodCount := rfl

theorem countsVote_margin (forCount imodCount : ℚ) (splitCount : Option ℚ) :
    voteMarginSharePct (countsVote forCount imodCount splitCount) =
      (if forCount + imodCount = 0 then ⊤
        else ((|forCount - imodCount| / (forCount + imodCount) * 100 : ℚ) : WithTop ℚ)) := rfl

theorem ten_withTop_coe : ((10 : ℚ) : WithTop ℚ) = (10 : WithTop ℚ) := by norm_cast

/-! ### Claim theorems -/

/-- C1: `isCloseVote` holds exactly when the decision total is strictly
positive and the margin share is at most 10 percent (inclusive); a
55/45 vote is close, a 54/44 vote is not close, a 0/0 vote is never
close regardless of the party-split count, and `voteMarginSharePct` of
a 0/0 vote is plus infinity. -/
theorem C1_isCloseVote_threshold :
    (∀ vote : Vote, isCloseVote vote = true ↔
      0 < voteDecisionTotal vote ∧ voteMarginSharePct vote ≤ (10 : WithTop ℚ)) ∧
    (∀ splitCount : Option ℚ,
      isCloseVote (countsVote 55 45 splitCount) = true ∧
      isCloseVote (countsVote 54 44 splitCount) = false ∧
      isCloseVote (countsVote 0 0 splitCount) = false ∧
      voteMarginSharePct (countsVote 0 0 splitCount) = ⊤) := by
  refine ⟨isCloseVote_iff, fun splitCount => ⟨?_, ?_, ?_, ?_⟩⟩
  · rw [isCloseVote_iff]
    refine ⟨by rw [countsVote_total]; norm_num, ?_⟩
    rw [countsVote_margin, if_neg (by norm_num),
      show (|(55 : ℚ) - 45| / (55 + 45) * 100 : ℚ) = 10 by norm_num, ten_withTop_coe]
  · rw [Bool.eq_false_iff, Ne, isCloseVote_iff]
    rintro ⟨-, hle⟩
    rw [countsVote_margin, if_neg (by norm_num),
      show (|(54 : ℚ) - 44| / (54 + 44) * 100 : ℚ) = 500 / 49 by norm_num,
      ← ten_withTop_coe] at hle
    have h10 : (500 / 49 : ℚ) ≤ 10 := WithTop.coe_le_coe.mp hle
    norm_num at h10
  · rw [Bool.eq_false_iff, Ne, isCloseVote_iff]
    rintro ⟨hpos, -⟩
    rw [countsVote_total] at hpos
    norm_num at hpos
  · rw [countsVote_margin, if_pos (by norm_num)]

/-- C2: whenever exactly one side of a metric comparison is missing,
the comparator returns 1 when the left value is missing and -1 when the
right value is missing, in either direction — the missing side sorts
last and never ahead of a present value.  This covers `compareMetric`
(part_001), its `compareProfiles` dispatch in all four metric sort
modes, and the duplicated `compareAttendance` of app.js. -/
theorem C2_missing_value_sorts_last :
    ∀ (compareByName : NameCmp) (leftValue rightValue : Option ℚ)
      (leftProfile rightProfile : Profile) (direction sortMode : String),
      (leftValue = none → rightValue ≠ none →
        compareMetric compareByName leftValue rightValue leftProfile rightProfile direction = 1) ∧
      (leftValue ≠ none → rightValue = none →
        compareMetric compareByName leftValue rightValue leftProfile rightProfile direction = -1) ∧
      (leftProfile.attendance_pct = none → rightProfile.attendance_pct ≠ none →
        compareAttendance compareByName leftProfile rightProfile direction = 1) ∧
      (leftProfile.attendance_pct ≠ none → rightProfile.attendance_pct = none →
        compareAttendance compareByName leftProfile rightProfile direction = -1) ∧
      (leftProfile.attendance_pct = none → rightProfile.attendance_pct ≠ none →
        (sortMode = "attendance_desc" ∨ sortMode = "attendance_asc") →
        compareProfiles compareByName leftProfile rightProfile sortMode = 1) ∧
      (leftProfile.attendance_pct ≠ none → rightProfile.attendance_pct = none →
        (sortMode = "attendance_desc" ∨ sortMode = "attendance_asc") →
        compareProfiles compareByName leftProfile rightProfile sortMode = -1) ∧
      (leftProfile.party_loyalty_pct = none → rightProfile.party_loyalty_pct ≠ none →
        (sortMode = "loyalty_desc" ∨ sortMode = "loyalty_asc") →
        compareProfiles compareByName leftProfile rightProfile sortMode = 1) ∧
      (leftProfile.party_loyalty_pct ≠ none → rightProfile.party_loyalty_pct = none →
        (sortMode = "loyalty_desc" ∨ sortMode = "loyalty_asc") →
        compareProfiles compareByName leftProfile rightProfile sortMode = -1) := by
  intro compareByName leftValue rightValue leftProfile rightProfile direction sortMode
  refine ⟨fun h1 h2 => ?_, fun h1 h2 => ?_, fun h1 h2 => ?_, fun h1 h2 => ?_,
    fun h1 h2 h3 => ?_, fun h1 h2 h3 => ?_, fun h1 h2 h3 => ?_, fun h1 h2 h3 => ?_⟩ <;>
    first
      | (simp only [compareMetric, compareAttendance, h1, h2]
         simp [Option.isNone_iff_eq_none, h1, h2])
      | (rcases h3 with rfl | rfl <;>
          · simp only [compareProfiles]
            simp only [compareMetric]
            simp [Option.isNone_iff_eq_none, h1, h2])

/-- C2 witness: a missing left metric sorts after a present right
metric at concrete inputs. -/
theorem C2_missing_value_sorts_last_witness :
    compareMetric (fun _ _ => 0) none (some 80) profileBo profileAnna "desc" = 1 ∧
    compareAttendance (fun _ _ => 0) profileBo profileAnna "desc" = 1 ∧
    compareProfiles (fun _ _ => 0) profileBo profileAnna "attendance_desc" = 1 := by
  have h := C2_missing_value_sorts_last (fun _ _ => 0) none (some 80)
    profileBo profileAnna "desc" "attendance_desc"
  exact ⟨h.1 rfl (by decide), h.2.2.1 rfl (by decide),
    h.2.2.2.2.1 rfl (by decide) (Or.inl rfl)⟩

/-- C3: in the discover.js controller the serialize guard
("attendance_asc") disagrees with the hydrate default
("attendance_desc"), so the reachable state with sort mode
"attendance_asc" does not survive a serialize/hydrate round trip and
serializing the default state emits a sort parameter instead of a clean
URL; the part_002 controller, whose guard and default agree on "name",
round-trips the same state and serializes its default sort to no
parameters. -/
theorem C3_url_roundtrip_divergence :
    hydrateDiscover (syncQueryStringDiscover
        { discoverDefaultState with sortMode := "attendance_asc" }) ≠
      { discoverDefaultState with sortMode := "attendance_asc" } ∧
    (hydrateDiscover (syncQueryStringDiscover
        { discoverDefaultState with sortMode := "attendance_asc" })).sortMode =
      "attendance_desc" ∧
    syncQueryStringDiscover discoverDefaultState = [("sort", "attendance_desc")] ∧
    hydrateDiscover2 (syncQueryStringDiscover2
        { discoverDefaultState with sortMode := "attendance_asc" }) =
      { discoverDefaultState with sortMode := "attendance_asc" } ∧
    syncQueryStringDiscover2 { discoverDefaultState with sortMode := "name" } = [] := by
  refine ⟨by decide, rfl, rfl, by decide, rfl⟩

/-- C4: the rollup average is null exactly when every member value is
null, is unchanged by discarding the null values (they are excluded
from numerator and denominator alike), and on the spec's examples:
members 80 and null average to 80.0, two null members average to null. -/
theorem C4_averageMetric_excludes_missing :
    (∀ values : List (Option ℚ),
      (averageMetric values = none ↔ values.all (fun v => v.isNone) = true) ∧
      averageMetric values = averageMetric ((values.filterMap (fun v => v)).map some)) ∧
    averageMetric [some 80, none] = some 80 ∧
    averageMetric [none, none] = none := by
  have h80 : averageMetric [some 80, none] = some 80 := by
    show (if (List.filterMap (fun v => v) [some (80 : ℚ), none]).isEmpty then none
      else some (round1 ((List.filterMap (fun v => v) [some (80 : ℚ), none]).foldl (· + ·) 0 /
        ((List.filterMap (fun v => v) [some (80 : ℚ), none]).length : ℚ)))) = some (80 : ℚ)
    rw [show List.filterMap (fun v => v) [some (80 : ℚ), none] = [(80 : ℚ)] from rfl]
    rw [if_neg (by decide)]
    have hval : (List.foldl (· + ·) 0 [(80 : ℚ)] / (([(80 : ℚ)].length : Nat) : ℚ)) = 80 := by
      simp [List.foldl]
    rw [hval]
    have hround : round1 (80 : ℚ) = 80 := by
      unfold round1
      have hfl : ⌊(80 : ℚ) * 10 + 1 / 2⌋ = 800 := by
        rw [Int.floor_eq_iff]
        norm_num
      rw [hfl]
      norm_num
    rw [hround]
  refine ⟨fun values => ⟨?_, ?_⟩, h80, rfl⟩
  · rw [← filterMap_id_eq_nil]
    unfold averageMetric
    by_cases h : values.filterMap (fun v => v) = [] <;> simp [h, List.isEmpty_iff]
  · unfold averageMetric
    rw [List.filterMap_map]
    have hcomp : (List.filterMap ((fun v => v) ∘ some)
        (values.filterMap (fun v => v))) = values.filterMap (fun v => v) :=
      filterMap_some_eq _
    rw [hcomp]

/-- C5 counterexample: for the stored query "soeren" and the profile
named "søren", the spec's two-check rule matches (the normalised query
is a substring of the normalised candidate), yet the app.js search box
rejects the profile because it runs only the raw lowercase check. -/
theorem C5_counterexample_app_raw_only :
    specSearchMatches "soeren" (appSearchable profileSoren) = true ∧
    appMatchesQuery (appStateQuery "soeren") profileSoren = false := by
  exact ⟨rfl, rfl⟩

/-- C5 amended: only the discover profile filters run both the
normalised and the raw lowercase check; the app.js profile filter runs
only the raw lowercase check and the part_004 votes filter only the
normalised check.  Concretely the discover filter finds the profile
"søren" for query "soeren" while the app.js filter misses it. -/
theorem C5_search_checks_per_view :
    (∀ (stateQuery : String) (profile : Profile),
      discoverMatchesQuery stateQuery profile =
        (toLowerStr (jsTrimStr stateQuery) == "" ||
          strIncludes (normaliseText (discoverRawSearchable profile)) (normaliseText stateQuery) ||
          strIncludes (discoverRawSearchable profile) (toLowerStr (jsTrimStr stateQuery)))) ∧
    (∀ (stateQuery : String) (vote : Vote),
      voteMatchesQuery stateQuery vote =
        (normaliseText stateQuery == "" ||
          strIncludes (voteSearchable vote) (normaliseText stateQuery))) ∧
    (∀ (stateQuery : String) (profile : Profile),
      appMatchesQuery stateQuery profile =
        (stateQuery == "" || strIncludes (appSearchable profile) stateQuery)) ∧
    discoverMatchesQuery "soeren" profileSoren = true ∧
    appMatchesQuery (appStateQuery "soeren") profileSoren = false := by
  exact ⟨fun _ _ => rfl, fun _ _ => rfl, fun _ _ => rfl, rfl, rfl⟩

/-- C6: the discover.js profile controller defaults its sort mode to
the performance ordering "attendance_desc" — both in its initial state
literal and in the hydrate fallback — contradicting the neutral-default
rule, while the part_002 discover and part_003 parties controllers
default to "name" and the part_004 votes controller to "date_desc". -/
theorem C6_discover_defaults_attendance_desc :
    (hydrateDiscover []).sortMode = "attendance_desc" ∧
    discoverDefaultState.sortMode = "attendance_desc" ∧
    (hydrateDiscover2 []).sortMode = "name" ∧
    hydrateParties [] = "name" ∧
    (hydrateVotes []).sortMode = "date_desc" :=
  ⟨rfl, rfl, rfl, rfl, rfl⟩

/-- C7 counterexample: the discover.js hydrate stores an unrecognized
sort token verbatim in the state instead of falling back to the
default. -/
theorem C7_counterexample_verbatim_sort :
    (hydrateDiscover [("sort", "bogus")]).sortMode = "bogus" := rfl

/-- C7 amended: the controllers that define a VALID_SORTS set (part_002
discover, part_003 parties, part_004 votes) always hydrate a recognized
sort token and clamp an unrecognized token to the view's named default;
the discover.js controllers instead store the token verbatim (see the
counterexample; sorting then falls back to the name ordering, so no
crash occurs). -/
theorem C7_unrecognized_sort_clamps :
    ∀ params : Params,
      VALID_SORTS_DISCOVER.contains (hydrateDiscover2 params).sortMode = true ∧
      VALID_SORTS_PARTIES.contains (hydrateParties params) = true ∧
      VALID_SORTS_VOTES.contains (hydrateVotes params).sortMode = true ∧
      (VALID_SORTS_DISCOVER.contains (jsOrStr (getParam params "sort") "name") = false →
        (hydrateDiscover2 params).sortMode = "name") ∧
      (VALID_SORTS_PARTIES.contains (jsOrStr (getParam params "sort") "name") = false →
        hydrateParties params = "name") ∧
      (VALID_SORTS_VOTES.contains (jsOrStr (getParam params "sort") "date_desc") = false →
        (hydrateVotes params).sortMode = "date_desc") := by
  intro params
  have hd : (hydrateDiscover2 params).sortMode =
      (if VALID_SORTS_DISCOVER.contains (jsOrStr (getParam params "sort") "name") = true
        then jsOrStr (getParam params "sort") "name" else "name") := rfl
  have hp : hydrateParties params =
      (if VALID_SORTS_PARTIES.contains (jsOrStr (getParam params "sort") "name") = true
        then jsOrStr (getParam params "sort") "name" else "name") := rfl
  have hv : (hydrateVotes params).sortMode =
      (if VALID_SORTS_VOTES.contains (jsOrStr (getParam params "sort") "date_desc") = true
        then jsOrStr (getParam params "sort") "date_desc" else "date_desc") := rfl
  refine ⟨?_, ?_, ?_, fun h => ?_, fun h => ?_, fun h => ?_⟩
  · rw [hd]
    by_cases h : VALID_SORTS_DISCOVER.contains (jsOrStr (getParam params "sort") "name") = true
    · rw [if_pos h]; exact h
    · rw [if_neg h]; rfl
  · rw [hp]
    by_cases h : VALID_SORTS_PARTIES.contains (jsOrStr (getParam params "sort") "name") = true
    · rw [if_pos h]; exact h
    · rw [if_neg h]; rfl
  · rw [hv]
    by_cases h : VALID_SORTS_VOTES.contains (jsOrStr (getParam params "sort") "date_desc") = true
    · rw [if_pos h]; exact h
    · rw [if_neg h]; rfl
  · rw [hd, if_neg (by rw [h]; exact Bool.false_ne_true)]
  · rw [hp, if_neg (by rw [h]; exact Bool.false_ne_true)]
  · rw [hv, if_neg (by rw [h]; exact Bool.false_ne_true)]

/-- C7 witness: the unrecognized token "bogus" hydrates to each view's
named default in the validating controllers. -/
theorem C7_unrecognized_sort_clamps_witness :
    (hydrateDiscover2 [("sort", "bogus")]).sortMode = "name" ∧
    hydrateParties [("sort", "bogus")] = "name" ∧
    (hydrateVotes [("sort", "bogus")]).sortMode = "date_desc" := by
  have h := C7_unrecognized_sort_clamps [("sort", "bogus")]
  exact ⟨h.2.2.2.1 rfl, h.2.2.2.2.1 rfl, h.2.2.2.2.2 rfl⟩

theorem nodup_addUnique {α : Type} [DecidableEq α] (l : List α) (x : α) (h : l.Nodup) :
    (addUnique l x).Nodup := by
  unfold addUnique
  by_cases hx : x ∈ l
  · rwa [if_pos hx]
  · rw [if_neg hx, List.nodup_append]
    exact ⟨h, List.nodup_singleton x, fun a ha hb => hx (by
      rw [List.mem_singleton.mp hb] at ha; exact ha)⟩

theorem nodup_foldl_addUnique {α : Type} [DecidableEq α] (ids : List α) :
    ∀ l : List α, l.Nodup → (ids.foldl addUnique l).Nodup := by
  induction ids with
  | nil => intro l h; simpa using h
  | cons x xs ih => intro l h; exact ih _ (nodup_addUnique l x h)

theorem addToGroup_key (group : PartyGroup) (entry : PartyEntry) :
    (addToGroup group entry).key = group.key := rfl

theorem addToGroup_memberIds_nodup (group : PartyGroup) (entry : PartyEntry)
    (h : group.memberIds.Nodup) : (addToGroup group entry).memberIds.Nodup :=
  nodup_foldl_addUnique entry.member_ids group.memberIds h

theorem mem_insertEntry {groups : List PartyGroup} {entry : PartyEntry} {g : PartyGroup}
    (h : g ∈ insertEntry groups entry) :
    (∃ g0 ∈ groups, g = g0 ∨ g = addToGroup g0 entry) ∨
      g = addToGroup
        { key := entryKey entry, shortName := jsOrStr entry.short_name "",
          rawNames := [], memberIds := [] } entry := by
  unfold insertEntry at h
  by_cases hc : (groups.any (fun g0 => g0.key == entryKey entry)) = true
  · rw [if_pos hc] at h
    obtain ⟨g0, hg0, heq⟩ := List.mem_map.mp h
    refine Or.inl ⟨g0, hg0, ?_⟩
    by_cases hk : (g0.key == entryKey entry) = true
    · right; rw [← heq, if_pos hk]
    · left; rw [← heq, if_neg hk]
  · rw [if_neg hc] at h
    rcases List.mem_append.mp h with hg | hg
    · exact Or.inl ⟨g, hg, Or.inl rfl⟩
    · exact Or.inr (List.mem_singleton.mp hg)

theorem groupEntries_invariant (P : PartyGroup → Prop)
    (hins : ∀ groups entry g, (∀ g0 ∈ groups, P g0) → g ∈ insertEntry groups entry → P g) :
    ∀ (entries : List PartyEntry) (acc : List PartyGroup),
      (∀ g ∈ acc, P g) → ∀ g ∈ entries.foldl insertEntry acc, P g := by
  intro entries
  induction entries with
  | nil => intro acc hacc; simpa using hacc
  | cons e es ih =>
    intro acc hacc
    exact ih (insertEntry acc e) (fun g hg => hins acc e g hacc hg)

theorem groupEntries_memberIds_nodup (partyEntries : List PartyEntry) :
    ∀ g ∈ groupEntries partyEntries, g.memberIds.Nodup := by
  refine groupEntries_invariant (fun g => g.memberIds.Nodup) ?_ partyEntries [] (by simp)
  intro groups entry g hacc hg
  rcases mem_insertEntry hg with ⟨g0, hg0, heq | heq⟩ | heq
  · rw [heq]; exact hacc g0 hg0
  · rw [heq]; exact addToGroup_memberIds_nodup g0 entry (hacc g0 hg0)
  · rw [heq]; exact addToGroup_memberIds_nodup _ entry List.nodup_nil

theorem groupEntries_key_from_entries :
    ∀ (entries : List PartyEntry) (acc : List PartyGroup) (g : PartyGroup),
      g ∈ entries.foldl insertEntry acc →
      (∃ g0 ∈ acc, g.key = g0.key) ∨ ∃ e ∈ entries, entryKey e = g.key := by
  intro entries
  induction entries with
  | nil => intro acc g hg; exact Or.inl ⟨g, hg, rfl⟩
  | cons e es ih =>
    intro acc g hg
    rcases ih (insertEntry acc e) g hg with ⟨g0, hg0, hk⟩ | ⟨e1, he1, hk⟩
    · rcases mem_insertEntry hg0 with ⟨g1, hg1, heq | heq⟩ | heq
      · exact Or.inl ⟨g1, hg1, heq ▸ hk⟩
      · exact Or.inl ⟨g1, hg1, by rw [hk, heq, addToGroup_key]⟩
      · refine Or.inr ⟨e, List.mem_cons_self e es, ?_⟩
        rw [hk, heq, addToGroup_key]
    · exact Or.inr ⟨e1, List.mem_cons_of_mem e he1, hk⟩

theorem insertEntry_mem_key (groups : List PartyGroup) (entry : PartyEntry) :
    ∃ g ∈ insertEntry groups entry, g.key = entryKey entry := by
  unfold insertEntry
  by_cases hc : (groups.any (fun g0 => g0.key == entryKey entry)) = true
  · rw [if_pos hc]
    obtain ⟨g0, hg0, hbeq⟩ := List.any_eq_true.mp hc
    refine ⟨addToGroup g0 entry, List.mem_map.mpr ⟨g0, hg0, by rw [if_pos hbeq]⟩, ?_⟩
    rw [addToGroup_key]
    exact beq_iff_eq.mp hbeq
  · rw [if_neg hc]
    exact ⟨_, List.mem_append_right _ (List.mem_singleton.mpr rfl), rfl⟩

theorem insertEntry_keeps_key {groups : List PartyGroup} {k : Option String}
    (h : ∃ g ∈ groups, g.key = k) (entry : PartyEntry) :
    ∃ g ∈ insertEntry groups entry, g.key = k := by
  obtain ⟨g, hg, hk⟩ := h
  unfold insertEntry
  by_cases hc : (groups.any (fun g0 => g0.key == entryKey entry)) = true
  · rw [if_pos hc]
    by_cases hgk : (g.key == entryKey entry) = true
    · exact ⟨addToGroup g entry, List.mem_map.mpr ⟨g, hg, by rw [if_pos hgk]⟩,
        by rw [addToGroup_key]; exact hk⟩
    · exact ⟨g, List.mem_map.mpr ⟨g, hg, by rw [if_neg hgk]⟩, hk⟩
  · rw [if_neg hc]
    exact ⟨g, List.mem_append_left _ hg, hk⟩

theorem foldl_keeps_key (entries : List PartyEntry) :
    ∀ (acc : List PartyGroup) (k : Option String), (∃ g ∈ acc, g.key = k) →
      ∃ g ∈ entries.foldl insertEntry acc, g.key = k := by
  induction entries with
  | nil => intro acc k h; simpa using h
  | cons e es ih => intro acc k h; exact ih (insertEntry acc e) k (insertEntry_keeps_key h e)

theorem groupEntries_has_entry_key (partyEntries : List PartyEntry) :
    ∀ e ∈ partyEntries, ∃ g ∈ groupEntries partyEntries, g.key = entryKey e := by
  suffices h : ∀ (entries : List PartyEntry) (acc : List PartyGroup), ∀ e ∈ entries,
      ∃ g ∈ entries.foldl insertEntry acc, g.key = entryKey e by
    intro e he; exact h partyEntries [] e he
  intro entries
  induction entries with
  | nil => intro acc e he; cases he
  | cons e0 es ih =>
    intro acc e he
    rcases List.mem_cons.mp he with rfl | he
    · exact foldl_keeps_key es (insertEntry acc e) (entryKey e)
        (insertEntry_mem_key acc e)
    · exact ih (insertEntry acc e0) e he

theorem mkPartyRow_of_no_members (siteBasePath : String) (profiles : List Profile)
    (g : PartyGroup) (h : g.memberIds.filterMap (profilesFind profiles) = []) :
    mkPartyRow siteBasePath profiles g = none := by
  unfold mkPartyRow
  rw [h]
  rfl

theorem mem_buildPartyRows_pos {siteBasePath : String} {profiles : List Profile}
    {partyEntries : List PartyEntry} {row : PartyRow}
    (h : row ∈ buildPartyRows siteBasePath profiles partyEntries) : 0 < row.memberCount := by
  obtain ⟨g, _, hrow⟩ := List.mem_filterMap.mp h
  unfold mkPartyRow at hrow
  by_cases hm : (g.memberIds.filterMap (profilesFind profiles)).isEmpty = true
  · rw [if_pos hm] at hrow
    cases hrow
  · rw [if_neg hm] at hrow
    have hlen : 0 < (g.memberIds.filterMap (profilesFind profiles)).length := by
      rcases hl : g.memberIds.filterMap (profilesFind profiles) with _ | ⟨x, xs⟩
      · rw [hl] at hm; exact absurd rfl hm
      · simp
    have hcount : row.memberCount = (g.memberIds.filterMap (profilesFind profiles)).length := by
      have := congrArg (fun o => Option.map PartyRow.memberCount o) hrow
      simpa using this.symm
    rwa [hcount]

/-- C8 counterexample: a roster entry with neither short_name nor name
is not dropped — it is grouped under the absent key and, because its
member id resolves to a live profile, it contributes a rollup row. -/
theorem C8_counterexample_keyless_entry :
    (buildPartyRows "/" [profileAnna] [keylessEntry]).length = 1 := by
  show (List.filterMap (mkPartyRow "/" [profileAnna]) (groupEntries [keylessEntry])).length = 1
  rw [show groupEntries [keylessEntry] =
    [addToGroup { key := none, shortName := "", rawNames := [], memberIds := [] }
      keylessEntry] from rfl]
  rw [List.filterMap_cons]
  rw [show mkPartyRow "/" [profileAnna]
    (addToGroup { key := none, shortName := "", rawNames := [], memberIds := [] } keylessEntry) =
    some (Option.get (mkPartyRow "/" [profileAnna]
      (addToGroup { key := none, shortName := "", rawNames := [], memberIds := [] } keylessEntry))
      (by rw [Option.isSome_iff_ne_none]; unfold mkPartyRow; rw [if_neg (by decide)]; simp)) from
    (Option.some_get _).symm]
  rfl

/-- C8 amended: entries are grouped by short_name falling back to name
(every group key stems from some entry and every entry has a group with
its key); member ids within a group are deduplicated; and a group whose
member ids resolve to no live profile contributes no row, so every
emitted row has a positive member count.  However, an entry with
neither short_name nor name is not dropped: it is grouped under the
absent key and still yields a row when its member ids resolve (see the
counterexample). -/
theorem C8_buildPartyRows_grouping :
    ∀ (siteBasePath : String) (profiles : List Profile) (partyEntries : List PartyEntry),
      (∀ g ∈ groupEntries partyEntries, g.memberIds.Nodup) ∧
      (∀ g ∈ groupEntries partyEntries, ∃ e ∈ partyEntries, entryKey e = g.key) ∧
      (∀ e ∈ partyEntries, ∃ g ∈ groupEntries partyEntries, g.key = entryKey e) ∧
      (∀ row ∈ buildPartyRows siteBasePath profiles partyEntries, 0 < row.memberCount) ∧
      (∀ g : PartyGroup, g.memberIds.filterMap (profilesFind profiles) = [] →
        mkPartyRow siteBasePath profiles g = none) := by
  intro siteBasePath profiles partyEntries
  refine ⟨groupEntries_memberIds_nodup partyEntries, ?_,
    groupEntries_has_entry_key partyEntries,
    fun row hrow => mem_buildPartyRows_pos hrow,
    fun g hg => mkPartyRow_of_no_members siteBasePath profiles g hg⟩
  intro g hg
  rcases groupEntries_key_from_entries partyEntries [] g hg with ⟨g0, hg0, _⟩ | h
  · cases hg0
  · exact h

/-- C8 witness: the keyless entry gets a group with its (absent) key,
and a group whose sole member id resolves to no profile yields no row. -/
theorem C8_buildPartyRows_grouping_witness :
    (∃ g ∈ groupEntries [keylessEntry], g.key = entryKey keylessEntry) ∧
    mkPartyRow "/" [] staleGroup = none := by
  have h := C8_buildPartyRows_grouping "/" [] [keylessEntry]
  exact ⟨h.2.2.1 keylessEntry (List.mem_singleton.mpr rfl), h.2.2.2.2 staleGroup rfl⟩

/-- C9: after the reconciliation step the selection is null exactly
when the filtered list is empty, every selected id belongs to an entity
in the filtered list, and when the previous selection is no longer in
the filtered list the controller takes the first element (clearing the
vote view's party filter); the app.js profile variant behaves the same
way, so a selection never references an entity outside the filtered
list. -/
theorem C9_reconcile_selection_in_list :
    ∀ (filteredVotes : List Vote) (selectedVoteId : Option Nat) (partyFilter : String)
      (filteredProfiles : List Profile) (selectedId : Option Nat),
      ((reconcileVoteSelection filteredVotes selectedVoteId partyFilter).1 = none ↔
        filteredVotes = []) ∧
      (∀ n : Nat, (reconcileVoteSelection filteredVotes selectedVoteId partyFilter).1 = some n →
        ∃ vote ∈ filteredVotes, vote.afstemning_id = n) ∧
      (filteredVotes.any (fun vote => some vote.afstemning_id == selectedVoteId) = false →
        reconcileVoteSelection filteredVotes selectedVoteId partyFilter =
          ((filteredVotes.head?).map (·.afstemning_id), "")) ∧
      (reconcileProfileSelection filteredProfiles selectedId = none ↔ filteredProfiles = []) ∧
      (∀ n : Nat, reconcileProfileSelection filteredProfiles selectedId = some n →
        ∃ profile ∈ filteredProfiles, profile.id = n) := by
  intro votes sel pf profs selId
  have hVotes : ((reconcileVoteSelection votes sel pf).1 = none ↔ votes = []) ∧
      (∀ n : Nat, (reconcileVoteSelection votes sel pf).1 = some n →
        ∃ vote ∈ votes, vote.afstemning_id = n) ∧
      ((votes.any (fun vote => some vote.afstemning_id == sel)) = false →
        reconcileVoteSelection votes sel pf = ((votes.head?).map (·.afstemning_id), "")) := by
    unfold reconcileVoteSelection
    by_cases h : (votes.any (fun vote => some vote.afstemning_id == sel)) = true
    · rw [if_pos h]
      obtain ⟨v, hv, hbeq⟩ := List.any_eq_true.mp h
      rw [beq_iff_eq] at hbeq
      refine ⟨?_, ?_, ?_⟩
      · constructor
        · intro hx; rw [← hbeq] at hx; cases hx
        · intro hx; subst hx; cases hv
      · intro n hn
        rw [← hbeq] at hn
        exact ⟨v, hv, Option.some.inj hn⟩
      · intro hfalse; rw [hfalse] at h; cases h
    · rw [if_neg h]
      refine ⟨?_, ?_, fun _ => rfl⟩
      · show (votes.head?).map (·.afstemning_id) = none ↔ votes = []
        rcases votes with _ | ⟨v, vs⟩ <;> simp
      · intro n hn
        rcases votes with _ | ⟨v, vs⟩
        · cases hn
        · refine ⟨v, List.mem_cons_self v vs, ?_⟩
          exact Option.some.inj hn
  have hProfs : (reconcileProfileSelection profs selId = none ↔ profs = []) ∧
      (∀ n : Nat, reconcileProfileSelection profs selId = some n →
        ∃ profile ∈ profs, profile.id = n) := by
    unfold reconcileProfileSelection
    by_cases h : (profs.any (fun profile => some profile.id == selId)) = true
    · rw [if_pos h]
      obtain ⟨p, hp, hbeq⟩ := List.any_eq_true.mp h
      rw [beq_iff_eq] at hbeq
      refine ⟨?_, ?_⟩
      · constructor
        · intro hx; rw [← hbeq] at hx; cases hx
        · intro hx; subst hx; cases hp
      · intro n hn
        rw [← hbeq] at hn
        exact ⟨p, hp, Option.some.inj hn⟩
    · rw [if_neg h]
      refine ⟨?_, ?_⟩
      · rcases profs with _ | ⟨p, ps⟩ <;> simp
      · intro n hn
        rcases profs with _ | ⟨p, ps⟩
        · cases hn
        · exact ⟨p, List.mem_cons_self p ps, Option.some.inj hn⟩
  exact ⟨hVotes.1, hVotes.2.1, hVotes.2.2, hProfs.1, hProfs.2⟩

/-- C9 witness: a stale selection is replaced by the first filtered
vote, and an empty filtered profile list clears the selection. -/
theorem C9_reconcile_selection_in_list_witness :
    reconcileVoteSelection [countsVote 55 45 (some 0)] (some 99) "S" = (some 1, "") ∧
    reconcileProfileSelection [] (some 7) = none := by
  have h := C9_reconcile_selection_in_list [countsVote 55 45 (some 0)] (some 99) "S" [] (some 7)
  exact ⟨(h.2.2.1 rfl).trans rfl, (h.2.2.2.1).mpr rfl⟩

/-! ### Lemmas for the normaliser idempotence analysis -/

theorem upper_cond_iff (c : Char) :
    ('A' ≤ c && c ≤ 'Z') = true ↔ 65 ≤ c.toNat ∧ c.toNat ≤ 90 := by
  simp only [Bool.and_eq_true, decide_eq_true_eq, Char.le_def]
  exact Iff.rfl

theorem char_ofNat_toNat {n : Nat} (h : n < 0xd800) : (Char.ofNat n).toNat = n := by
  unfold Char.ofNat
  rw [dif_pos (Or.inl h)]
  rfl

theorem jsToLower_of_ascii (c : Char) (h : c.toNat < 128) :
    jsToLower c = if ('A' ≤ c && c ≤ 'Z') = true then Char.ofNat (c.toNat + 32) else c := by
  have hne : ∀ d : Char, 128 ≤ d.toNat → c ≠ d := by
    intro d hd hc
    rw [hc] at h
    omega
  unfold jsToLower
  by_cases hb : ('A' ≤ c && c ≤ 'Z') = true
  · rw [if_pos hb, if_pos hb]
  · rw [if_neg hb, if_neg hb,
      if_neg (hne 'Æ' (by decide)), if_neg (hne 'Ø' (by decide)),
      if_neg (hne 'Å' (by decide)), if_neg (hne 'Ð' (by decide)),
      if_neg (hne 'Þ' (by decide)), if_neg (hne 'Ǣ' (by decide)),
      if_neg (hne 'É' (by decide))]

theorem danishChar_of_ascii (c : Char) (h : c.toNat < 128) : danishChar c = [c] := by
  have hne : ∀ d : Char, 128 ≤ d.toNat → c ≠ d := by
    intro d hd hc
    rw [hc] at h
    omega
  unfold danishChar
  rw [if_neg (hne 'æ' (by decide)), if_neg (hne 'ø' (by decide)),
    if_neg (hne 'å' (by decide)), if_neg (hne 'ð' (by decide)),
    if_neg (hne 'þ' (by decide))]

theorem nfdChar_of_ascii (c : Char) (h : c.toNat < 128) : nfdChar c = [c] := by
  have hne : ∀ d : Char, 128 ≤ d.toNat → c ≠ d := by
    intro d hd hc
    rw [hc] at h
    omega
  unfold nfdChar
  rw [if_neg (hne 'ǣ' (by decide)), if_neg (hne 'ǿ' (by decide)),
    if_neg (hne 'ǻ' (by decide)), if_neg (hne 'å' (by decide)),
    if_neg (hne 'é' (by decide)), if_neg (hne 'Å' (by decide)),
    if_neg (hne 'É' (by decide))]

theorem lower_plain (c : Char) (h : PlainChar c) :
    ∀ d ∈ danishChar (jsToLower c), d.toNat < 128 ∧ ¬(65 ≤ d.toNat ∧ d.toNat ≤ 90) := by
  rcases h with hc | hc
  · by_cases hb : ('A' ≤ c && c ≤ 'Z') = true
    · rw [jsToLower_of_ascii c hc, if_pos hb]
      obtain ⟨h1, h2⟩ := (upper_cond_iff c).mp hb
      have hofn : (Char.ofNat (c.toNat + 32)).toNat = c.toNat + 32 :=
        char_ofNat_toNat (by omega)
      rw [danishChar_of_ascii _ (by rw [hofn]; omega)]
      intro d hd
      rw [List.mem_singleton.mp hd, hofn]
      omega
    · rw [jsToLower_of_ascii c hc, if_neg hb]
      rw [danishChar_of_ascii c hc]
      intro d hd
      rw [List.mem_singleton.mp hd]
      refine ⟨hc, fun hu => hb ((upper_cond_iff c).mpr hu)⟩
  · fin_cases hc <;> decide

theorem stage1_ascii (l : List Char) (h : ∀ c ∈ l, PlainChar c) :
    ∀ d ∈ danishReplace (l.map jsToLower), d.toNat < 128 ∧ ¬(65 ≤ d.toNat ∧ d.toNat ≤ 90) := by
  intro d hd
  obtain ⟨c1, hc1, hdc⟩ := List.mem_flatMap.mp hd
  obtain ⟨c, hc, rfl⟩ := List.mem_map.mp hc1
  exact lower_plain c (h c hc) d hdc

theorem nfd_eq_of_ascii (m : List Char) (h : ∀ d ∈ m, d.toNat < 128) : nfd m = m := by
  induction m with
  | nil => rfl
  | cons c rest ih =>
    show nfdChar c ++ rest.flatMap nfdChar = c :: rest
    rw [nfdChar_of_ascii c (h c (List.mem_cons_self c rest))]
    rw [show rest.flatMap nfdChar = nfd rest from rfl,
      ih (fun d hd => h d (List.mem_cons_of_mem c hd))]
    rfl

theorem stripCombining_eq_of_ascii (m : List Char) (h : ∀ d ∈ m, d.toNat < 128) :
    stripCombining m = m := by
  refine List.filter_eq_self.mpr (fun d hd => ?_)
  have := h d hd
  unfold isCombiningMark
  simp only [Bool.not_eq_true']
  rw [Bool.and_eq_false_iff]
  left
  simp only [decide_eq_false_iff_not]
  omega

theorem mem_punctToSpace {m : List Char} {d : Char} (hd : d ∈ punctToSpace m) :
    d = ' ' ∨ (d ∈ m ∧ keepSearchChar d = true) := by
  obtain ⟨c, hc, heq⟩ := List.mem_map.mp hd
  by_cases hk : keepSearchChar c = true
  · rw [if_pos hk] at heq
    exact Or.inr ⟨heq ▸ hc, heq ▸ hk⟩
  · rw [if_neg hk] at heq
    exact Or.inl heq.symm

theorem mem_squashWs (l : List Char) :
    ∀ d ∈ squashWs l, d = ' ' ∨ (d ∈ l ∧ isWsJs d = false) := by
  induction l using squashWs.induct with
  | case1 => intro d hd; cases hd
  | case2 c =>
    intro d hd
    simp only [squashWs] at hd
    rcases List.mem_singleton.mp hd with rfl
    by_cases hw : isWsJs c = true
    · rw [if_pos hw]; exact Or.inl rfl
    · rw [if_neg hw]
      exact Or.inr ⟨List.mem_singleton.mpr rfl, by simpa using hw⟩
  | case3 c e rest hcond ih =>
    intro d hd
    simp only [squashWs, hcond, if_true] at hd
    rcases ih d hd with h | ⟨hm, hw⟩
    · exact Or.inl h
    · exact Or.inr ⟨List.mem_cons_of_mem c hm, hw⟩
  | case4 c e rest hcond ih =>
    intro d hd
    simp only [squashWs, hcond, if_false, Bool.false_eq_true] at hd
    rcases List.mem_cons.mp hd with heq | hd2
    · by_cases hw : isWsJs c = true
      · rw [if_pos hw] at heq; exact Or.inl heq
      · rw [if_neg hw] at heq
        exact Or.inr ⟨heq ▸ List.mem_cons_self c (e :: rest), heq ▸ (by simpa using hw)⟩
    · rcases ih d hd2 with h | ⟨hm, hw⟩
      · exact Or.inl h
      · exact Or.inr ⟨List.mem_cons_of_mem c hm, hw⟩

theorem squashWs_head_of_not_ws (c : Char) (rest : List Char) (h : isWsJs c = false) :
    (squashWs (c :: rest)).head? = some c := by
  rcases rest with _ | ⟨e, rest⟩
  · simp only [squashWs, h, Bool.false_eq_true, if_false]
    rfl
  · have hcond : (isWsJs c && isWsJs e) = false := by rw [h]; rfl
    simp only [squashWs, hcond, Bool.false_eq_true, if_false, h]
    rfl

theorem chain'_squashWs (l : List Char) : List.Chain' NotBothWs (squashWs l) := by
  induction l using squashWs.induct with
  | case1 => exact List.chain'_nil
  | case2 c => simp only [squashWs]; exact List.chain'_singleton _
  | case3 c e rest hcond ih => simpa only [squashWs, hcond, if_true] using ih
  | case4 c e rest hcond ih =>
    simp only [squashWs]
    rw [if_neg hcond]
    rw [List.chain'_cons']
    refine ⟨?_, ih⟩
    intro y hy
    by_cases hw : isWsJs c = true
    · have he : isWsJs e = false := by
        rcases Bool.and_eq_false_iff.mp (Bool.eq_false_iff.mpr hcond) with h | h
        · rw [hw] at h; cases h
        · exact h
      rw [squashWs_head_of_not_ws e rest he] at hy
      have hye : y = e := (Option.some.inj (Option.mem_def.mp hy)).symm
      rw [if_pos hw, hye]
      exact Or.inr he
    · rw [if_neg hw]
      exact Or.inl (by simpa using hw)

theorem squashWs_eq_self (l : List Char) :
    (∀ d ∈ l, isWsJs d = true → d = ' ') → List.Chain' NotBothWs l → squashWs l = l := by
  induction l using squashWs.induct with
  | case1 => intro _ _; rfl
  | case2 c =>
    intro h1 _
    simp only [squashWs]
    by_cases hw : isWsJs c = true
    · rw [if_pos hw, h1 c (List.mem_singleton.mpr rfl) hw]
    · rw [if_neg hw]
  | case3 c e rest hcond ih =>
    intro h1 h2
    exfalso
    have hc := hcond
    rw [Bool.and_eq_true] at hc
    rcases (List.chain'_cons'.mp h2).1 e rfl with h | h
    · rw [hc.1] at h; cases h
    · rw [hc.2] at h; cases h
  | case4 c e rest hcond ih =>
    intro h1 h2
    simp only [squashWs, hcond, Bool.false_eq_true, if_false]
    have htail := (List.chain'_cons'.mp h2).2
    rw [ih (fun d hd hw => h1 d (List.mem_cons_of_mem c hd) hw) htail]
    by_cases hw : isWsJs c = true
    · rw [if_pos hw, h1 c (List.mem_cons_self c (e :: rest)) hw]
    · rw [if_neg hw]

theorem dropWhile_head_not (p : Char → Bool) (l : List Char) :
    ∀ d, (l.dropWhile p).head? = some d → p d = false := by
  induction l with
  | nil => intro d hd; cases hd
  | cons c rest ih =>
    intro d hd
    rw [List.dropWhile_cons] at hd
    by_cases hp : p c = true
    · rw [if_pos hp] at hd; exact ih d hd
    · rw [if_neg hp] at hd
      have hcd : c = d := Option.some.inj hd
      rw [← hcd]
      exact Bool.not_eq_true _ ▸ hp

theorem dropWhile_getLast?_of_ne_nil (p : Char → Bool) (l : List Char)
    (h : l.dropWhile p ≠ []) : (l.dropWhile p).getLast? = l.getLast? := by
  induction l with
  | nil => exact absurd rfl h
  | cons c rest ih =>
    rw [List.dropWhile_cons] at h ⊢
    by_cases hp : p c = true
    · rw [if_pos hp] at h ⊢
      have hrest : rest ≠ [] := by
        intro hr
        rw [hr] at h
        exact h rfl
      rcases rest with _ | ⟨e, es⟩
      · exact absurd rfl hrest
      · rw [ih h, List.getLast?_cons_cons]
    · rw [if_neg hp] at h ⊢

theorem dropWhile_eq_self_of_head (p : Char → Bool) (l : List Char)
    (h : ∀ d, l.head? = some d → p d = false) : l.dropWhile p = l := by
  rcases l with _ | ⟨c, rest⟩
  · rfl
  · rw [List.dropWhile_cons,
      if_neg (by rw [h c rfl]; exact Bool.false_ne_true)]

theorem jsTrimL_subset (l : List Char) : ∀ d ∈ jsTrimL l, d ∈ l := by
  intro d hd
  unfold jsTrimL at hd
  rw [List.mem_reverse] at hd
  have h1 := (List.dropWhile_suffix isWsJs).sublist.subset hd
  rw [List.mem_reverse] at h1
  exact (List.dropWhile_suffix isWsJs).sublist.subset h1

theorem jsTrimL_head_not_ws (l : List Char) :
    ∀ d, (jsTrimL l).head? = some d → isWsJs d = false := by
  intro d hd
  unfold jsTrimL at hd
  rw [List.head?_reverse] at hd
  by_cases hv : (l.dropWhile isWsJs).reverse.dropWhile isWsJs = []
  · rw [hv] at hd; cases hd
  · rw [dropWhile_getLast?_of_ne_nil _ _ hv, List.getLast?_reverse] at hd
    exact dropWhile_head_not isWsJs l d hd

theorem jsTrimL_getLast_not_ws (l : List Char) :
    ∀ d, (jsTrimL l).getLast? = some d → isWsJs d = false := by
  intro d hd
  unfold jsTrimL at hd
  rw [List.getLast?_reverse] at hd
  exact dropWhile_head_not isWsJs _ d hd

theorem jsTrimL_chain' (l : List Char) (h : List.Chain' NotBothWs l) :
    List.Chain' NotBothWs (jsTrimL l) := by
  unfold jsTrimL
  have h1 : List.Chain' NotBothWs (l.dropWhile isWsJs) :=
    h.suffix (List.dropWhile_suffix isWsJs)
  have h2 : List.Chain' (flip NotBothWs) (l.dropWhile isWsJs) :=
    h1.imp (fun a b hab => Or.symm hab)
  have h3 : List.Chain' NotBothWs (l.dropWhile isWsJs).reverse :=
    List.chain'_reverse.mpr h2
  have h4 : List.Chain' NotBothWs ((l.dropWhile isWsJs).reverse.dropWhile isWsJs) :=
    h3.suffix (List.dropWhile_suffix isWsJs)
  exact List.chain'_reverse.mpr (h4.imp (fun a b hab => Or.symm hab))

theorem jsTrimL_eq_self (l : List Char)
    (hhead : ∀ d, l.head? = some d → isWsJs d = false)
    (hlast : ∀ d, l.getLast? = some d → isWsJs d = false) : jsTrimL l = l := by
  unfold jsTrimL
  rw [dropWhile_eq_self_of_head isWsJs l hhead,
    dropWhile_eq_self_of_head isWsJs l.reverse
      (fun d hd => hlast d (by rwa [List.head?_reverse] at hd))]
  exact List.reverse_reverse l

theorem map_jsToLower_eq_self (t : List Char) (h : ∀ d ∈ t, CanonChar d) :
    t.map jsToLower = t := by
  have heach : ∀ d ∈ t, jsToLower d = id d := by
    intro d hd
    obtain ⟨ha, _, hu, _⟩ := h d hd
    rw [jsToLower_of_ascii d ha, if_neg (fun hb => hu ((upper_cond_iff d).mp hb))]
    rfl
  rw [List.map_congr_left heach, List.map_id]

theorem danishReplace_eq_self (t : List Char) (h : ∀ d ∈ t, d.toNat < 128) :
    danishReplace t = t := by
  induction t with
  | nil => rfl
  | cons c rest ih =>
    show danishChar c ++ rest.flatMap danishChar = c :: rest
    rw [danishChar_of_ascii c (h c (List.mem_cons_self c rest)),
      show rest.flatMap danishChar = danishReplace rest from rfl,
      ih (fun d hd => h d (List.mem_cons_of_mem c hd))]
    rfl

theorem punctToSpace_eq_self (t : List Char) (h : ∀ d ∈ t, keepSearchChar d = true) :
    punctToSpace t = t := by
  have heach : ∀ d ∈ t, (if keepSearchChar d = true then d else ' ') = id d := by
    intro d hd
    rw [if_pos (h d hd)]
    rfl
  unfold punctToSpace
  rw [List.map_congr_left heach, List.map_id]

theorem normaliseTextL_canonical (l : List Char) (h : ∀ c ∈ l, PlainChar c) :
    CanonList (normaliseTextL l) := by
  unfold normaliseTextL
  have hm := stage1_ascii l h
  rw [nfd_eq_of_ascii _ (fun d hd => (hm d hd).1),
    stripCombining_eq_of_ascii _ (fun d hd => (hm d hd).1)]
  have hp : ∀ d ∈ punctToSpace (danishReplace (l.map jsToLower)),
      d.toNat < 128 ∧ keepSearchChar d = true ∧ ¬(65 ≤ d.toNat ∧ d.toNat ≤ 90) := by
    intro d hd
    rcases mem_punctToSpace hd with rfl | ⟨hdm, hk⟩
    · exact ⟨by decide, by decide, by decide⟩
    · exact ⟨(hm d hdm).1, hk, (hm d hdm).2⟩
  have hq : ∀ d ∈ squashWs (punctToSpace (danishReplace (l.map jsToLower))), CanonChar d := by
    intro d hd
    rcases mem_squashWs _ d hd with rfl | ⟨hdp, hw⟩
    · exact ⟨by decide, by decide, by decide, fun _ => rfl⟩
    · obtain ⟨h1, h2, h3⟩ := hp d hdp
      exact ⟨h1, h2, h3, fun hws => absurd hws (by rw [hw]; exact Bool.false_ne_true)⟩
  refine ⟨?_, ?_, ?_, ?_⟩
  · intro c hc
    exact hq c (jsTrimL_subset _ c hc)
  · exact jsTrimL_chain' _ (chain'_squashWs _)
  · exact jsTrimL_head_not_ws _
  · exact jsTrimL_getLast_not_ws _

theorem normaliseTextL_fix (t : List Char) (h : CanonList t) : normaliseTextL t = t := by
  obtain ⟨hc, hchain, hhead, hlast⟩ := h
  unfold normaliseTextL
  rw [map_jsToLower_eq_self t hc,
    danishReplace_eq_self t (fun d hd => (hc d hd).1),
    nfd_eq_of_ascii t (fun d hd => (hc d hd).1),
    stripCombining_eq_of_ascii t (fun d hd => (hc d hd).1),
    punctToSpace_eq_self t (fun d hd => (hc d hd).2.1),
    squashWs_eq_self t (fun d hd hw => (hc d hd).2.2.2 hw) hchain]
  exact jsTrimL_eq_self t hhead hlast

/-- C10 counterexample: `normaliseText` is not idempotent.  The letter
ǣ (ae with macron) survives the Danish replacements, then its NFD
decomposition is æ plus a combining macron, and the macron is stripped:
one application yields "æ", while a second application rewrites that
to "ae". -/
theorem C10_counterexample_nfd_reintroduces :
    normaliseText "ǣ" = "æ" ∧ normaliseText (normaliseText "ǣ") = "ae" ∧
      normaliseText (normaliseText "ǣ") ≠ normaliseText "ǣ" := by
  exact ⟨rfl, rfl, by decide⟩

/-- C10 amended: `normaliseText` is idempotent on every string whose
characters are ASCII or one of the Danish/Faroese letters the
normaliser replaces (æ ø å ð þ in either case); the failure witnessed
by the counterexample needs a character such as ǣ whose canonical
decomposition reintroduces one of those letters after the replacement
stage has already run. -/
theorem C10_normaliseText_idem_plain :
    ∀ s : String, (∀ c ∈ s.data, PlainChar c) →
      normaliseText (normaliseText s) = normaliseText s := by
  intro s h
  show (⟨normaliseTextL (normaliseText s).data⟩ : String) = normaliseText s
  have hdata : (normaliseText s).data = normaliseTextL s.data := rfl
  rw [show normaliseText s = (⟨normaliseTextL s.data⟩ : String) from rfl]
  exact congrArg String.mk (normaliseTextL_fix _ (normaliseTextL_canonical s.data h))

/-- C10 witness: idempotence at a concrete plain string containing
uppercase, Danish letters, punctuation and repeated whitespace. -/
theorem C10_normaliseText_idem_plain_witness :
    normaliseText (normaliseText "Søren Å-test  123!") =
      normaliseText "Søren Å-test  123!" :=
  C10_normaliseText_idem_plain "Søren Å-test  123!" (by decide)

end Folkevalget
